import Mathlib

/-!
Verification development for the cluster-wide security-identity allocator
(cilium).  The repository ships the allocator's test suite
(src/daemon/k8s_watcher.go, functions testAllocator / TestSelectID /
TestkeyToID / BenchmarkAllocate) but not the allocator implementation
itself, so the operations below are modelled from the specification
(spec.md sections 3, 4, 6 and 8), with the tests pinning behaviour where
they are explicit (construction defaults, selectAvailableID scan order,
keyToID parsing).

The embedding is sequential: the spec serializes every multi-step
allocation/release sequence for a key behind a per-key distributed lock,
and the RemoteCache mirror of the master entries is treated as
synchronous with the backend (inside the lock the allocator confirms the
cache against the store, so the watch lag is unobservable there).  Under
that model the bounded CreateOnly retry loop of Branch B collapses to its
first iteration, because selection reads the same state that CreateOnly
writes.
-/

/-- Modelled from the spec: the reserved identity value, `NoID = 0`. -/
def NoID : Nat := 0

/-- Modelled from the spec: a LocalKeys table entry `{id, refcount}`. The
refcount is kept as an unbounded natural number; the source's uint64 can
only wrap after 2^64 increments, which no run of the allocator reaches. -/
structure LocalKey where
  id : Nat
  refcnt : Nat
deriving DecidableEq

/-- Modelled from the spec: the KV-store contents the allocator owns.
`masters` holds the entries below `<name>/id/` (path rendered as the
numeric ID, value the canonical key string); `slaves` holds the entries
below `<name>/value/` (path identified by the pair (canonical key, node
suffix), value the numeric ID). -/
structure Backend where
  masters : List (Nat × String)
  slaves : List ((String × String) × Nat)
deriving DecidableEq

/-- Modelled from the spec: one allocator instance.  `name` is the KV
namespace root, `min`/`max` the inclusive ID range, `suffix` the node
token used in slave-marker paths, `localKeys` the per-process refcount
table, `skipCache` the test switch that bypasses the LocalKeys fast
path. -/
structure Allocator where
  name : String
  min : Nat
  max : Nat
  suffix : String
  localKeys : List (String × LocalKey)
  skipCache : Bool
deriving DecidableEq

/-- Association-list lookup (first entry whose key matches). -/
def alookup {α β : Type} [DecidableEq α] (k : α) : List (α × β) → Option β
  | [] => none
  | p :: rest => if p.1 = k then some p.2 else alookup k rest

/-- Association-list removal of every entry with the given key. -/
def aremove {α β : Type} [DecidableEq α] (k : α) : List (α × β) → List (α × β)
  | [] => []
  | p :: rest => if p.1 = k then aremove k rest else p :: aremove k rest

/-- Reverse lookup in the master table: find the ID bound to a key. -/
def vlookup (v : String) : List (Nat × String) → Option Nat
  | [] => none
  | p :: rest => if p.2 = v then some p.1 else vlookup v rest

/-- Modelled from the spec: LocalKeys.use — bump the refcount of the
first entry for the key (the table keeps at most one entry per key). -/
def lkBump (k : String) : List (String × LocalKey) → List (String × LocalKey)
  | [] => []
  | p :: rest =>
    if p.1 = k then (p.1, ⟨p.2.id, p.2.refcnt + 1⟩) :: rest else p :: lkBump k rest

/-- Decrement the refcount of the first entry for the key. -/
def lkDec (k : String) : List (String × LocalKey) → List (String × LocalKey)
  | [] => []
  | p :: rest =>
    if p.1 = k then (p.1, ⟨p.2.id, p.2.refcnt - 1⟩) :: rest else p :: lkDec k rest

/-- Modelled from the spec: LocalKeys.allocate — insert with refcount 1;
fails (programming error) if the key is already present with a different
ID. -/
def lkAllocate (lks : List (String × LocalKey)) (k : String) (i : Nat) :
    Option (List (String × LocalKey)) :=
  match alookup k lks with
  | none => some (lks ++ [(k, ⟨i, 1⟩)])
  | some e => if e.id = i then some lks else none

/-- Modelled from the spec: CreateOnly of the node's slave marker.  A
marker already present with the same value (prior crash of this node) is
treated as success; one present with a different value is a conflict. -/
def slaveCreateOnly (bk : Backend) (k sfx : String) (i : Nat) : Option Backend :=
  match alookup (k, sfx) bk.slaves with
  | none => some { bk with slaves := bk.slaves ++ [((k, sfx), i)] }
  | some j => if j = i then some bk else none

/-- CreateOnly of the lease-less master entry binding an ID to a key. -/
def masterInsert (bk : Backend) (i : Nat) (k : String) : Backend :=
  { bk with masters := bk.masters ++ [(i, k)] }

/-- Render a natural number as base-10 ASCII digits (fuel-structural so
that the kernel can evaluate it; `n + 1` units of fuel always suffice). -/
def natToDecAux : Nat → Nat → List Char → List Char
  | 0, _, acc => acc
  | fuel + 1, n, acc =>
    if n < 10 then Char.ofNat (48 + n) :: acc
    else natToDecAux fuel (n / 10) (Char.ofNat (48 + n % 10) :: acc)

/-- Modelled from the spec: IDs are rendered as base-10 ASCII integers
(the source's `ID.String()`). -/
def natToDec (n : Nat) : List Char := natToDecAux (n + 1) n []

/-- Parse base-10 ASCII digits left to right (the source's
`strconv.ParseUint(s, 10, 64)` on an in-range input); any non-digit
character fails the parse. -/
def parseDecL : List Char → Nat → Option Nat
  | [], acc => some acc
  | c :: cs, acc =>
    if c.isDigit then parseDecL cs (acc * 10 + (c.toNat - 48)) else none

/-- Parse a non-empty all-digit string; the empty string is rejected. -/
def parseDec (s : List Char) : Option Nat :=
  match s with
  | [] => none
  | _ :: _ => parseDecL s 0

/-- Strip a leading path separator, if any. -/
def stripSlash : List Char → List Char
  | '/' :: rest => rest
  | l => l

/-- Strip an expected leading run of characters; `none` when the input
does not start with it. -/
def stripPre : List Char → List Char → Option (List Char)
  | [], rest => some rest
  | _ :: _, [] => none
  | c :: cs, d :: ds => if c = d then stripPre cs ds else none

/-- The prefix below which master entries live, `<name>/id`. -/
def idPrefixOf (a : Allocator) : String := a.name ++ "/id"

/-- Modelled from the spec: keyToID on character lists — a KV path under
the id prefix whose remaining component is a base-10 ASCII integer maps
to that integer; everything else maps to `NoID`. -/
def keyToIDL (pre key : List Char) : Nat :=
  match stripPre pre key with
  | none => NoID
  | some rest =>
    match parseDec (stripSlash rest) with
    | some n => n
    | none => NoID

/-- Modelled from the spec: the allocator's keyToID, mapping a watch-event
path back to the numeric ID it names. -/
def keyToID (a : Allocator) (key : String) : Nat :=
  keyToIDL (idPrefixOf a).toList key.toList

/-- Ascending scan for the first ID not present in the cache of master
entries; `fuel` counts the remaining candidates. -/
def selectLoop (cache : List (Nat × String)) : Nat → Nat → Nat × String
  | _, 0 => (NoID, "")
  | i, fuel + 1 =>
    if alookup i cache = none then (i, String.mk (natToDec i))
    else selectLoop cache (i + 1) fuel

/-- Modelled from the spec: selectAvailableID — return an ID in
`[lo, hi]` believed free (absent from the cache of master entries)
together with its decimal rendering, or `(NoID, "")` when every ID in the
range is in use. -/
def selectAvailableID (lo hi : Nat) (cache : List (Nat × String)) : Nat × String :=
  selectLoop cache lo (hi + 1 - lo)

/-- Modelled from the spec: the error kinds Allocate/Release surface. -/
inductive AllocError where
  | poolExhausted
  | allocContention
  | localMismatch
  | slaveConflict
  | notFound
deriving DecidableEq

/-- The `(ID, isNew, err)` triple returned by Allocate. -/
structure AllocResult where
  id : Nat
  isNew : Bool
  err : Option AllocError
deriving DecidableEq

/-- Modelled from the spec: Allocate(K), parameterized by the ID
selection policy.  Step 1 is the LocalKeys fast path (unless bypassed);
inside the per-key lock the master table is consulted for an existing
global binding (Branch A) and otherwise a fresh ID is claimed via
CreateOnly of the master entry followed by the slave marker and the
LocalKeys insert (Branch B). -/
def allocateWith (sel : Nat → Nat → List (Nat × String) → Nat × String)
    (a : Allocator) (bk : Backend) (k : String) :
    AllocResult × Allocator × Backend :=
  match (if a.skipCache then none else alookup k a.localKeys) with
  | some e => (⟨e.id, false, none⟩, { a with localKeys := lkBump k a.localKeys }, bk)
  | none =>
    match vlookup k bk.masters with
    | some idStar =>
      match lkAllocate a.localKeys k idStar with
      | none => (⟨NoID, false, some AllocError.localMismatch⟩, a, bk)
      | some lks =>
        match slaveCreateOnly bk k a.suffix idStar with
        | none => (⟨NoID, false, some AllocError.slaveConflict⟩,
                   { a with localKeys := lks }, bk)
        | some bk1 => (⟨idStar, false, none⟩, { a with localKeys := lks }, bk1)
    | none =>
      let cand := (sel a.min a.max bk.masters).1
      if cand = NoID then (⟨NoID, false, some AllocError.poolExhausted⟩, a, bk)
      else if alookup cand bk.masters = none then
        match slaveCreateOnly (masterInsert bk cand k) k a.suffix cand with
        | none => (⟨NoID, false, some AllocError.slaveConflict⟩, a, masterInsert bk cand k)
        | some bk2 =>
          match lkAllocate a.localKeys k cand with
          | none => (⟨NoID, false, some AllocError.localMismatch⟩, a, bk2)
          | some lks => (⟨cand, true, none⟩, { a with localKeys := lks }, bk2)
      else (⟨NoID, false, some AllocError.allocContention⟩, a, bk)

/-- Modelled from the spec: Allocate(K) with the allocator's ascending
ID selection. -/
def Allocate (a : Allocator) (bk : Backend) (k : String) :
    AllocResult × Allocator × Backend :=
  allocateWith selectAvailableID a bk k

/-- Modelled from the spec: Release(K) — decrement the local refcount;
on the last reference drop the table entry and delete this node's slave
marker (the master entry is left for the GC). -/
def Release (a : Allocator) (bk : Backend) (k : String) :
    Option AllocError × Allocator × Backend :=
  match alookup k a.localKeys with
  | none => (some AllocError.notFound, a, bk)
  | some e =>
    if e.refcnt ≤ 1 then
      (none, { a with localKeys := aremove k a.localKeys },
       { bk with slaves := aremove (k, a.suffix) bk.slaves })
    else
      (none, { a with localKeys := lkDec k a.localKeys }, bk)

/-- Does any node still hold a slave marker for this key? -/
def hasSlaveFor (slaves : List ((String × String) × Nat)) (k : String) : Bool :=
  match slaves with
  | [] => false
  | s :: rest => if s.1.1 = k then true else hasSlaveFor rest k

/-- One GC sweep over the observed master entries: a master whose key has
no slave marker left is deleted, every other master is kept. -/
def gcPass (slaves : List ((String × String) × Nat)) :
    List (Nat × String) → List (Nat × String)
  | [] => []
  | m :: rest =>
    if hasSlaveFor slaves m.2 then m :: gcPass slaves rest else gcPass slaves rest

/-- Modelled from the spec: runGC — for each master entry, list the slave
markers of its key and delete the master only when that listing is empty
(invariant I5). -/
def runGC (bk : Backend) : Backend :=
  { bk with masters := gcPass bk.slaves bk.masters }

/-- Modelled from the spec: the enumerated construction options
WithMin / WithMax / WithSuffix. -/
inductive AllocatorOption where
  | withMin (i : Nat)
  | withMax (i : Nat)
  | withSuffix (s : String)

/-- Apply one construction option. -/
def applyOpt (a : Allocator) : AllocatorOption → Allocator
  | .withMin i => { a with min := i }
  | .withMax i => { a with max := i }
  | .withSuffix s => { a with suffix := s }

/-- Modelled from the spec: NewAllocator — min defaults to 1 and the
options are applied in order.  The tests in src/daemon/k8s_watcher.go
(TestkeyToID) construct with no options at all and assert a nil error,
so construction performs no validation and never fails.  When WithMax is
omitted, neither the spec nor the tests pin the resulting max; the model
initializes the field with Go's zero value as a placeholder only, and no
theorem below relies on that value. -/
def NewAllocator (nm : String) (opts : List AllocatorOption) :
    Except String Allocator :=
  Except.ok (List.foldl applyOpt
    { name := nm, min := 1, max := 0, suffix := "", localKeys := [], skipCache := false }
    opts)

/-- A fresh allocator as the tests build it: `WithMax n, WithSuffix sfx`. -/
def mkAllocator (nm : String) (n : Nat) (sfx : String) : Allocator :=
  { name := nm, min := 1, max := n, suffix := sfx, localKeys := [], skipCache := false }

/-- Allocate a list of keys in order, collecting the per-call results. -/
def allocMany (a : Allocator) (bk : Backend) : List String → List AllocResult × Allocator × Backend
  | [] => ([], a, bk)
  | k :: ks =>
    let s := Allocate a bk k
    let rest := allocMany s.2.1 s.2.2 ks
    (s.1 :: rest.1, rest.2.1, rest.2.2)

/-- Iterate Allocate on one key. -/
def allocateN : Nat → Allocator → Backend → String → Allocator × Backend
  | 0, a, bk, _ => (a, bk)
  | j + 1, a, bk, k =>
    let s := Allocate a bk k
    allocateN j s.2.1 s.2.2 k

/-- Iterate Release on one key. -/
def releaseN : Nat → Allocator → Backend → String → Allocator × Backend
  | 0, a, bk, _ => (a, bk)
  | j + 1, a, bk, k =>
    let s := Release a bk k
    releaseN j s.2.1 s.2.2 k

/-- What a caller may rely on from one Allocate call according to the
spec's selection-policy paragraph: the error outcome and the isNew flag,
but not which available ID was handed out. -/
def obsOf (r : AllocResult) : Option AllocError × Bool := (r.err, r.isNew)

/-- Modelled from the spec: a selection policy is any deterministic or
pseudo-random choice from the available set — it returns `(NoID, "")`
exactly when every ID of `[lo, hi]` is taken, and otherwise some free ID
of the range. -/
def validSelector (sel : Nat → Nat → List (Nat × String) → Nat × String) : Prop :=
  ∀ lo hi cache, 1 ≤ lo →
    ((sel lo hi cache).1 = NoID ∧ (sel lo hi cache).2 = "" ∧
      ∀ i, lo ≤ i → i ≤ hi → (alookup i cache).isSome = true)
    ∨ (lo ≤ (sel lo hi cache).1 ∧ (sel lo hi cache).1 ≤ hi ∧
       alookup (sel lo hi cache).1 cache = none)

/-! ### Association-list lemmas -/

theorem alookup_append {α β : Type} [DecidableEq α] (k : α) (l1 l2 : List (α × β)) :
    alookup k (l1 ++ l2) =
      (match alookup k l1 with
       | some v => some v
       | none => alookup k l2) := by
  induction l1 with
  | nil => simp [alookup]
  | cons p rest ih => by_cases h : p.1 = k <;> simp [alookup, h, ih]

theorem alookup_aremove_self {α β : Type} [DecidableEq α] (k : α) (l : List (α × β)) :
    alookup k (aremove k l) = none := by
  induction l with
  | nil => simp [alookup, aremove]
  | cons p rest ih => by_cases h : p.1 = k <;> simp [alookup, aremove, h, ih]

theorem aremove_of_alookup_none {α β : Type} [DecidableEq α] (k : α) (l : List (α × β))
    (h : alookup k l = none) : aremove k l = l := by
  induction l with
  | nil => simp [aremove]
  | cons p rest ih =>
    by_cases hp : p.1 = k
    · simp [alookup, hp] at h
    · simp [alookup, hp] at h
      simp [aremove, hp, ih h]

theorem aremove_append {α β : Type} [DecidableEq α] (k : α) (l1 l2 : List (α × β)) :
    aremove k (l1 ++ l2) = aremove k l1 ++ aremove k l2 := by
  induction l1 with
  | nil => simp [aremove]
  | cons p rest ih => by_cases h : p.1 = k <;> simp [aremove, h, ih]

theorem alookup_lkBump (k : String) (l : List (String × LocalKey)) (e : LocalKey)
    (h : alookup k l = some e) :
    alookup k (lkBump k l) = some ⟨e.id, e.refcnt + 1⟩ := by
  induction l with
  | nil => simp [alookup] at h
  | cons p rest ih =>
    by_cases hp : p.1 = k
    · simp [alookup, hp] at h
      simp [lkBump, alookup, hp, h]
    · simp [alookup, hp] at h
      simp [lkBump, alookup, hp, ih h]

theorem alookup_lkDec (k : String) (l : List (String × LocalKey)) (e : LocalKey)
    (h : alookup k l = some e) :
    alookup k (lkDec k l) = some ⟨e.id, e.refcnt - 1⟩ := by
  induction l with
  | nil => simp [alookup] at h
  | cons p rest ih =>
    by_cases hp : p.1 = k
    · simp [alookup, hp] at h
      simp [lkDec, alookup, hp, h]
    · simp [alookup, hp] at h
      simp [lkDec, alookup, hp, ih h]

theorem aremove_lkDec (k : String) (l : List (String × LocalKey)) :
    aremove k (lkDec k l) = aremove k l := by
  induction l with
  | nil => simp [lkDec]
  | cons p rest ih => by_cases hp : p.1 = k <;> simp [lkDec, aremove, hp, ih]

theorem vlookup_append (v : String) (l1 l2 : List (Nat × String)) :
    vlookup v (l1 ++ l2) =
      (match vlookup v l1 with
       | some i => some i
       | none => vlookup v l2) := by
  induction l1 with
  | nil => simp [vlookup]
  | cons p rest ih => by_cases h : p.2 = v <;> simp [vlookup, h, ih]

/-! ### The ascending ID scan -/

theorem selectLoop_spec (cache : List (Nat × String)) :
    ∀ fuel start : Nat,
      (selectLoop cache start fuel = (NoID, "") ∧
        ∀ i, start ≤ i → i < start + fuel → (alookup i cache).isSome = true)
      ∨ (∃ i, selectLoop cache start fuel = (i, String.mk (natToDec i)) ∧
          start ≤ i ∧ i < start + fuel ∧ alookup i cache = none ∧
          ∀ j, start ≤ j → j < i → (alookup j cache).isSome = true) := by
  intro fuel
  induction fuel with
  | zero =>
    intro start
    left
    exact ⟨rfl, fun i h1 h2 => absurd h2 (by omega)⟩
  | succ fuel ih =>
    intro start
    by_cases h : alookup start cache = none
    · right
      exact ⟨start, by simp [selectLoop, h], Nat.le_refl _, by omega, h,
        fun j hj1 hj2 => absurd hj2 (by omega)⟩
    · have hs : selectLoop cache start (fuel + 1) = selectLoop cache (start + 1) fuel := by
        simp [selectLoop, h]
      have hsome : (alookup start cache).isSome = true := Option.ne_none_iff_isSome.mp h
      rcases ih (start + 1) with ⟨heq, hfull⟩ | ⟨i, heq, h1, h2, h3, hmin⟩
      · left
        refine ⟨hs.trans heq, ?_⟩
        intro i hi1 hi2
        rcases Nat.eq_or_lt_of_le hi1 with rfl | hlt
        · exact hsome
        · exact hfull i (by omega) (by omega)
      · right
        refine ⟨i, hs.trans heq, by omega, by omega, h3, ?_⟩
        intro j hj1 hj2
        rcases Nat.eq_or_lt_of_le hj1 with rfl | hlt
        · exact hsome
        · exact hmin j (by omega) hj2

theorem selectAvailableID_spec (lo hi : Nat) (cache : List (Nat × String)) :
    (selectAvailableID lo hi cache = (NoID, "") ∧
      ∀ i, lo ≤ i → i ≤ hi → (alookup i cache).isSome = true)
    ∨ (∃ i, selectAvailableID lo hi cache = (i, String.mk (natToDec i)) ∧
        lo ≤ i ∧ i ≤ hi ∧ alookup i cache = none ∧
        ∀ j, lo ≤ j → j < i → (alookup j cache).isSome = true) := by
  rcases selectLoop_spec cache (hi + 1 - lo) lo with ⟨heq, hfull⟩ | ⟨i, heq, h1, h2, h3, hmin⟩
  · left
    exact ⟨heq, fun i hi1 hi2 => hfull i hi1 (by omega)⟩
  · right
    exact ⟨i, heq, h1, by omega, h3, hmin⟩

theorem selectAvailableID_valid : validSelector selectAvailableID := by
  intro lo hi cache _hlo
  rcases selectAvailableID_spec lo hi cache with ⟨heq, hfull⟩ | ⟨i, heq, h1, h2, h3, _⟩
  · left
    rw [heq]
    exact ⟨rfl, rfl, hfull⟩
  · right
    rw [heq]
    exact ⟨h1, h2, h3⟩

/-! ### Branch lemmas for Allocate -/

theorem fastMiss (a : Allocator) (k : String)
    (hsc : a.skipCache = false) (hl : alookup k a.localKeys = none) :
    (if a.skipCache then none else alookup k a.localKeys) = (none : Option LocalKey) := by
  simp [hsc, hl]

theorem allocate_fast (sel : Nat → Nat → List (Nat × String) → Nat × String)
    (a : Allocator) (bk : Backend) (k : String) (e : LocalKey)
    (hsc : a.skipCache = false) (h : alookup k a.localKeys = some e) :
    allocateWith sel a bk k =
      (⟨e.id, false, none⟩, { a with localKeys := lkBump k a.localKeys }, bk) := by
  simp [allocateWith, hsc, h]

theorem allocate_hit (sel : Nat → Nat → List (Nat × String) → Nat × String)
    (a : Allocator) (bk : Backend) (k : String) (i : Nat)
    (hl : alookup k a.localKeys = none)
    (hv : vlookup k bk.masters = some i)
    (hs : alookup (k, a.suffix) bk.slaves = none) :
    allocateWith sel a bk k =
      (⟨i, false, none⟩,
       { a with localKeys := a.localKeys ++ [(k, ⟨i, 1⟩)] },
       { bk with slaves := bk.slaves ++ [((k, a.suffix), i)] }) := by
  simp [allocateWith, hv, lkAllocate, hl, slaveCreateOnly, hs]

theorem allocate_new (sel : Nat → Nat → List (Nat × String) → Nat × String)
    (a : Allocator) (bk : Backend) (k : String) (c : Nat)
    (hl : alookup k a.localKeys = none)
    (hv : vlookup k bk.masters = none)
    (hsel : (sel a.min a.max bk.masters).1 = c)
    (hc : c ≠ NoID)
    (hver : alookup c bk.masters = none)
    (hs : alookup (k, a.suffix) bk.slaves = none) :
    allocateWith sel a bk k =
      (⟨c, true, none⟩,
       { a with localKeys := a.localKeys ++ [(k, ⟨c, 1⟩)] },
       { bk with masters := bk.masters ++ [(c, k)],
                 slaves := bk.slaves ++ [((k, a.suffix), c)] }) := by
  simp [allocateWith, hv, hsel, hc, hver, slaveCreateOnly, masterInsert, lkAllocate, hl]
  rw [hs]

theorem allocate_exhausted (sel : Nat → Nat → List (Nat × String) → Nat × String)
    (a : Allocator) (bk : Backend) (k : String)
    (hsc : (if a.skipCache then none else alookup k a.localKeys) = none)
    (hv : vlookup k bk.masters = none)
    (hsel : (sel a.min a.max bk.masters).1 = NoID) :
    allocateWith sel a bk k = (⟨NoID, false, some AllocError.poolExhausted⟩, a, bk) := by
  simp [allocateWith, hsc, hv, hsel]

/-! ### Closed forms for a run of fresh allocations (spec scenario 1) -/

/-- Master entries created for the listed keys, ids ascending from `i`. -/
def mastersOf (i : Nat) : List String → List (Nat × String)
  | [] => []
  | k :: ks => (i, k) :: mastersOf (i + 1) ks

/-- Slave markers created for the listed keys by node `sfx`. -/
def slavesOf (sfx : String) (i : Nat) : List String → List ((String × String) × Nat)
  | [] => []
  | k :: ks => ((k, sfx), i) :: slavesOf sfx (i + 1) ks

/-- LocalKeys entries (refcount 1) for the listed keys. -/
def localsOf (i : Nat) : List String → List (String × LocalKey)
  | [] => []
  | k :: ks => (k, ⟨i, 1⟩) :: localsOf (i + 1) ks

/-- The Allocate results of a run of fresh allocations. -/
def resultsOf (i : Nat) : List String → List AllocResult
  | [] => []
  | _ :: ks => ⟨i, true, none⟩ :: resultsOf (i + 1) ks

theorem mastersOf_snoc (ps : List String) (k : String) :
    ∀ i, mastersOf i (ps ++ [k]) = mastersOf i ps ++ [(ps.length + i, k)] := by
  induction ps with
  | nil => intro i; simp [mastersOf]
  | cons p ps ih =>
    intro i
    simp [mastersOf, ih (i + 1)]
    omega

theorem slavesOf_snoc (sfx : String) (ps : List String) (k : String) :
    ∀ i, slavesOf sfx i (ps ++ [k]) = slavesOf sfx i ps ++ [((k, sfx), ps.length + i)] := by
  induction ps with
  | nil => intro i; simp [slavesOf]
  | cons p ps ih =>
    intro i
    simp [slavesOf, ih (i + 1)]
    omega

theorem localsOf_snoc (ps : List String) (k : String) :
    ∀ i, localsOf i (ps ++ [k]) = localsOf i ps ++ [(k, ⟨ps.length + i, 1⟩)] := by
  induction ps with
  | nil => intro i; simp [localsOf]
  | cons p ps ih =>
    intro i
    simp [localsOf, ih (i + 1)]
    omega

theorem alookup_localsOf (k : String) (ps : List String) (h : k ∉ ps) :
    ∀ i, alookup k (localsOf i ps) = none := by
  induction ps with
  | nil => intro i; simp [localsOf, alookup]
  | cons p ps ih =>
    intro i
    have h1 : ¬(k = p) ∧ k ∉ ps := by simpa [List.mem_cons, not_or] using h
    have hp : ¬(p = k) := fun hh => h1.1 hh.symm
    simp [localsOf, alookup, hp, ih h1.2]

theorem vlookup_mastersOf (k : String) (ps : List String) (h : k ∉ ps) :
    ∀ i, vlookup k (mastersOf i ps) = none := by
  induction ps with
  | nil => intro i; simp [mastersOf, vlookup]
  | cons p ps ih =>
    intro i
    have h1 : ¬(k = p) ∧ k ∉ ps := by simpa [List.mem_cons, not_or] using h
    have hp : ¬(p = k) := fun hh => h1.1 hh.symm
    simp [mastersOf, vlookup, hp, ih h1.2]

theorem alookup_slavesOf (k sfx : String) (ps : List String) (h : k ∉ ps) :
    ∀ i, alookup (k, sfx) (slavesOf sfx i ps) = none := by
  induction ps with
  | nil => intro i; simp [slavesOf, alookup]
  | cons p ps ih =>
    intro i
    have h1 : ¬(k = p) ∧ k ∉ ps := by simpa [List.mem_cons, not_or] using h
    have hp : ¬(((p, sfx) : String × String) = (k, sfx)) := fun hh =>
      h1.1 (congrArg Prod.fst hh).symm
    simp [slavesOf, alookup, hp, ih h1.2]

theorem alookup_mastersOf (ps : List String) :
    ∀ i j : Nat, (alookup i (mastersOf j ps)).isSome = true ↔ j ≤ i ∧ i < j + ps.length := by
  induction ps with
  | nil =>
    intro i j
    simp [mastersOf, alookup]
  | cons p ps ih =>
    intro i j
    by_cases h : j = i
    · subst h
      simp [mastersOf, alookup]
    · simp only [mastersOf, alookup, List.length_cons]
      rw [if_neg h]
      rw [ih i (j + 1)]
      omega

theorem alookup_mastersOf_none (ps : List String) (i j : Nat)
    (h : i < j ∨ j + ps.length ≤ i) : alookup i (mastersOf j ps) = none := by
  have := (alookup_mastersOf ps i j).not.mpr (by omega)
  simpa [Option.not_isSome_iff_eq_none] using this

theorem select_mastersOf (n : Nat) (ps : List String) (h : ps.length < n) :
    (selectAvailableID 1 n (mastersOf 1 ps)).1 = ps.length + 1 := by
  rcases selectAvailableID_spec 1 n (mastersOf 1 ps) with
    ⟨heq, hfull⟩ | ⟨i, heq, h1, h2, h3, hmin⟩
  · exfalso
    have hx := hfull (ps.length + 1) (by omega) (by omega)
    rw [alookup_mastersOf] at hx
    omega
  · rw [heq]
    show i = ps.length + 1
    have hni : ¬(alookup i (mastersOf 1 ps)).isSome = true := by simp [h3]
    rw [alookup_mastersOf] at hni
    by_contra hne
    have hgt : ps.length + 1 < i := by omega
    have hj := hmin (ps.length + 1) (by omega) (by omega)
    rw [alookup_mastersOf] at hj
    omega

theorem allocMany_closed (nm sfx : String) (n : Nat) :
    ∀ ks ps : List String, ks.Nodup → (∀ x ∈ ks, x ∉ ps) → ps.length + ks.length ≤ n →
    allocMany
      { name := nm, min := 1, max := n, suffix := sfx,
        localKeys := localsOf 1 ps, skipCache := false }
      { masters := mastersOf 1 ps, slaves := slavesOf sfx 1 ps } ks
    = (resultsOf (ps.length + 1) ks,
       { name := nm, min := 1, max := n, suffix := sfx,
         localKeys := localsOf 1 (ps ++ ks), skipCache := false },
       { masters := mastersOf 1 (ps ++ ks), slaves := slavesOf sfx 1 (ps ++ ks) }) := by
  intro ks
  induction ks with
  | nil =>
    intro ps _ _ _
    simp [allocMany, resultsOf]
  | cons k ks ih =>
    intro ps hnd hdisj hlen
    have hkps : k ∉ ps := hdisj k (List.mem_cons_self k ks)
    have hlen2 : ps.length + ks.length + 1 ≤ n := by
      simp only [List.length_cons] at hlen
      omega
    have hstep :=
      allocate_new selectAvailableID
        { name := nm, min := 1, max := n, suffix := sfx,
          localKeys := localsOf 1 ps, skipCache := false }
        { masters := mastersOf 1 ps, slaves := slavesOf sfx 1 ps }
        k (ps.length + 1)
        (alookup_localsOf k ps hkps 1)
        (vlookup_mastersOf k ps hkps 1)
        (select_mastersOf n ps (by omega))
        (by simp [NoID])
        (alookup_mastersOf_none ps (ps.length + 1) 1 (by omega))
        (alookup_slavesOf k sfx ps hkps 1)
    have hkks : k ∉ ks := (List.nodup_cons.mp hnd).1
    have hdisj' : ∀ x ∈ ks, x ∉ ps ++ [k] := by
      intro x hx
      simp only [List.mem_append, List.mem_singleton, not_or]
      exact ⟨hdisj x (List.mem_cons_of_mem k hx), fun hh => hkks (hh ▸ hx)⟩
    have hlen' : (ps ++ [k]).length + ks.length ≤ n := by
      simp only [List.length_append, List.length_singleton]
      omega
    have hrec := ih (ps ++ [k]) (List.nodup_cons.mp hnd).2 hdisj' hlen'
    rw [localsOf_snoc, mastersOf_snoc, slavesOf_snoc] at hrec
    simp only [allocMany, Allocate]
    rw [hstep]
    simp only []
    rw [hrec]
    simp [resultsOf, List.append_assoc, List.length_append]

/-! ### Iterated Allocate / Release on one key -/

theorem allocateN_fast (k : String) :
    ∀ (m : Nat) (a : Allocator) (bk : Backend) (i c : Nat),
      a.skipCache = false → alookup k a.localKeys = some ⟨i, c⟩ →
      (allocateN m a bk k).1.suffix = a.suffix ∧
      (allocateN m a bk k).1.skipCache = false ∧
      (allocateN m a bk k).2 = bk ∧
      alookup k (allocateN m a bk k).1.localKeys = some ⟨i, c + m⟩ := by
  intro m
  induction m with
  | zero =>
    intro a bk i c hsc h
    exact ⟨rfl, hsc, rfl, by simpa using h⟩
  | succ m ih =>
    intro a bk i c hsc h
    have hstep := allocate_fast selectAvailableID a bk k ⟨i, c⟩ hsc h
    simp only [allocateN, Allocate]
    rw [hstep]
    simp only []
    have hb := alookup_lkBump k a.localKeys ⟨i, c⟩ h
    have hnext := ih { a with localKeys := lkBump k a.localKeys } bk i (c + 1) hsc hb
    refine ⟨hnext.1, hnext.2.1, hnext.2.2.1, ?_⟩
    have := hnext.2.2.2
    rw [show c + 1 + m = c + (m + 1) from by omega] at this
    exact this

theorem releaseN_drain (k : String) :
    ∀ (c : Nat) (a : Allocator) (bk : Backend) (i : Nat),
      alookup k a.localKeys = some ⟨i, c⟩ → 1 ≤ c →
      releaseN c a bk k =
        ({ a with localKeys := aremove k a.localKeys },
         { bk with slaves := aremove (k, a.suffix) bk.slaves }) := by
  intro c
  induction c with
  | zero =>
    intro a bk i h h1
    exact absurd h1 (by omega)
  | succ c ih =>
    intro a bk i h _
    by_cases hc : c = 0
    · subst hc
      simp only [releaseN, Release]
      rw [h]
      simp [releaseN]
    · simp only [releaseN, Release]
      rw [h]
      simp only []
      have hgt : ¬((⟨i, c + 1⟩ : LocalKey).refcnt ≤ 1) := by
        simp
        omega
      rw [if_neg hgt]
      simp only []
      have hd : alookup k (lkDec k a.localKeys) = some ⟨i, c⟩ := by
        have := alookup_lkDec k a.localKeys ⟨i, c + 1⟩ h
        simpa using this
      have hrec := ih { a with localKeys := lkDec k a.localKeys } bk i hd (by omega)
      rw [hrec, aremove_lkDec]

theorem allocateN_fix (a : Allocator) (bk : Backend) (k : String)
    (h1 : (Allocate a bk k).2.1 = a) (h2 : (Allocate a bk k).2.2 = bk) :
    ∀ m, allocateN m a bk k = (a, bk) := by
  intro m
  induction m with
  | zero => rfl
  | succ m ih =>
    simp only [allocateN]
    rw [h1, h2]
    exact ih

theorem releaseN_fix (a : Allocator) (bk : Backend) (k : String)
    (h : alookup k a.localKeys = none) :
    ∀ m, releaseN m a bk k = (a, bk) := by
  intro m
  induction m with
  | zero => rfl
  | succ m ih =>
    simp only [releaseN, Release]
    rw [h]
    simp only []
    exact ih

theorem allocate_shape (a : Allocator) (bk : Backend) (k : String)
    (hsc : a.skipCache = false) (hl : alookup k a.localKeys = none)
    (hs : alookup (k, a.suffix) bk.slaves = none) :
    Allocate a bk k = (⟨NoID, false, some AllocError.poolExhausted⟩, a, bk)
    ∨ ∃ i b ms, Allocate a bk k =
        (⟨i, b, none⟩,
         { a with localKeys := a.localKeys ++ [(k, ⟨i, 1⟩)] },
         { masters := ms, slaves := bk.slaves ++ [((k, a.suffix), i)] }) := by
  cases hv : vlookup k bk.masters with
  | some i =>
    right
    exact ⟨i, false, bk.masters, allocate_hit selectAvailableID a bk k i hl hv hs⟩
  | none =>
    by_cases hz : (selectAvailableID a.min a.max bk.masters).1 = NoID
    · left
      exact allocate_exhausted selectAvailableID a bk k (fastMiss a k hsc hl) hv hz
    · right
      rcases selectAvailableID_spec a.min a.max bk.masters with
        ⟨heq, _⟩ | ⟨i, heq, _, _, h3, _⟩
      · exact absurd (by rw [heq]) hz
      · have hsel : (selectAvailableID a.min a.max bk.masters).1 = i := by rw [heq]
        refine ⟨i, true, bk.masters ++ [(i, k)], ?_⟩
        exact allocate_new selectAvailableID a bk k i hl hv hsel
          (by rw [← hsel]; exact hz) h3 hs

/-! ### Decimal rendering and parsing -/

theorem digitChar_isDigit (d : Nat) (h : d < 10) :
    (Char.ofNat (48 + d)).isDigit = true := by
  interval_cases d <;> decide

theorem digitChar_toNat (d : Nat) (h : d < 10) :
    (Char.ofNat (48 + d)).toNat = 48 + d := by
  interval_cases d <;> decide

theorem natToDec_small (n : Nat) (h : n < 10) :
    natToDec n = [Char.ofNat (48 + n)] := by
  simp [natToDec, natToDecAux, h]

theorem natToDecAux_good (n : Nat) :
    ∀ f acc, 0 < f → n < 10 ^ f → natToDecAux f n acc = natToDec n ++ acc := by
  induction n using Nat.strong_induction_on with
  | _ n IH =>
    intro f acc hf hlt
    obtain ⟨g, rfl⟩ : ∃ g, f = g + 1 := ⟨f - 1, by omega⟩
    by_cases hn : n < 10
    · simp [natToDecAux, hn, natToDec_small n hn]
    · have hg : 0 < g := by
        rcases Nat.eq_zero_or_pos g with rfl | h
        · simp at hlt
          omega
        · exact h
      have hdiv : n / 10 < 10 ^ g := by
        rw [Nat.div_lt_iff_lt_mul (by omega : (0:Nat) < 10)]
        calc n < 10 ^ (g + 1) := hlt
          _ = 10 ^ g * 10 := by rw [pow_succ]
      have hlt10 : n / 10 < n := Nat.div_lt_self (by omega) (by omega)
      have e1 : natToDecAux (g + 1) n acc =
          natToDecAux g (n / 10) (Char.ofNat (48 + n % 10) :: acc) := by
        simp [natToDecAux, hn]
      have e2 := IH (n / 10) hlt10 g (Char.ofNat (48 + n % 10) :: acc) hg hdiv
      have e3 : natToDec n = natToDecAux n (n / 10) [Char.ofNat (48 + n % 10)] := by
        simp [natToDec, natToDecAux, hn]
      have hdivn : n / 10 < 10 ^ n := by
        have hx : n < 10 ^ n := Nat.lt_pow_self (by omega) n
        omega
      have e4 := IH (n / 10) hlt10 n [Char.ofNat (48 + n % 10)] (by omega) hdivn
      rw [e1, e2, e3, e4, List.append_assoc]
      rfl

theorem natToDec_step (n : Nat) (hn : ¬ n < 10) :
    natToDec n = natToDec (n / 10) ++ [Char.ofNat (48 + n % 10)] := by
  have e3 : natToDec n = natToDecAux n (n / 10) [Char.ofNat (48 + n % 10)] := by
    simp [natToDec, natToDecAux, hn]
  have hdivn : n / 10 < 10 ^ n := by
    have hx : n < 10 ^ n := Nat.lt_pow_self (by omega) n
    have := Nat.div_lt_self (show 0 < n by omega) (show 1 < 10 by omega)
    omega
  rw [e3, natToDecAux_good (n / 10) n _ (by omega) hdivn]

theorem natToDec_ne_nil (n : Nat) : natToDec n ≠ [] := by
  by_cases hn : n < 10
  · rw [natToDec_small n hn]
    simp
  · rw [natToDec_step n hn]
    simp

theorem parseDecL_append (l1 l2 : List Char) :
    ∀ acc, parseDecL (l1 ++ l2) acc =
      (match parseDecL l1 acc with
       | some v => parseDecL l2 v
       | none => none) := by
  induction l1 with
  | nil => intro acc; simp [parseDecL]
  | cons c cs ih =>
    intro acc
    by_cases h : c.isDigit <;> simp [parseDecL, h, ih]

theorem parseDecL_natToDec (n : Nat) :
    ∀ acc, parseDecL (natToDec n) acc = some (acc * 10 ^ (natToDec n).length + n) := by
  induction n using Nat.strong_induction_on with
  | _ n IH =>
    intro acc
    by_cases hn : n < 10
    · rw [natToDec_small n hn]
      simp [parseDecL, digitChar_isDigit n hn, digitChar_toNat n hn]
    · have hlt10 : n / 10 < n := Nat.div_lt_self (by omega) (by omega)
      rw [natToDec_step n hn, parseDecL_append]
      rw [IH (n / 10) hlt10 acc]
      have hd : n % 10 < 10 := by omega
      simp only [parseDecL, digitChar_isDigit (n % 10) hd, digitChar_toNat (n % 10) hd,
        if_pos, List.length_append, List.length_cons, List.length_nil]
      obtain ⟨q, r, hqr, hr⟩ : ∃ q r, n = 10 * q + r ∧ r < 10 :=
        ⟨n / 10, n % 10, by omega, by omega⟩
      have h1 : n / 10 = q := by omega
      have h2 : n % 10 = r := by omega
      rw [h1, h2, Nat.add_sub_cancel_left, hqr]
      congr 1
      ring

theorem parseDec_natToDec (n : Nat) : parseDec (natToDec n) = some n := by
  obtain ⟨c, cs, hc⟩ : ∃ c cs, natToDec n = c :: cs := by
    cases h : natToDec n with
    | nil => exact absurd h (natToDec_ne_nil n)
    | cons c cs => exact ⟨c, cs, rfl⟩
  have hp := parseDecL_natToDec n 0
  simp only [Nat.zero_mul, Nat.zero_add] at hp
  rw [hc]
  simp only [parseDec]
  rw [← hc]
  exact hp

theorem parseDecL_nondigit : ∀ (l : List Char) acc, (∃ c ∈ l, ¬ c.isDigit = true) →
    parseDecL l acc = none := by
  intro l
  induction l with
  | nil =>
    intro acc h
    rcases h with ⟨c, hc, _⟩
    cases hc
  | cons c cs ih =>
    intro acc h
    by_cases hd : c.isDigit
    · rcases h with ⟨d, hdm, hnd⟩
      rcases List.mem_cons.mp hdm with rfl | hdm'
      · exact absurd hd hnd
      · simp [parseDecL, hd, ih _ ⟨d, hdm', hnd⟩]
    · simp [parseDecL, hd]

theorem parseDec_nondigit (s : List Char) (h : s = [] ∨ ∃ c ∈ s, ¬ c.isDigit = true) :
    parseDec s = none := by
  rcases h with rfl | h
  · rfl
  · cases s with
    | nil => rfl
    | cons c cs =>
      simp only [parseDec]
      exact parseDecL_nondigit (c :: cs) 0 h

/-! ### Path-prefix handling -/

theorem stripPre_append : ∀ pre rest : List Char, stripPre pre (pre ++ rest) = some rest := by
  intro pre
  induction pre with
  | nil => intro rest; simp [stripPre]
  | cons c cs ih => intro rest; simp [stripPre, ih]

theorem stripPre_some : ∀ pre key rest : List Char,
    stripPre pre key = some rest → key = pre ++ rest := by
  intro pre
  induction pre with
  | nil =>
    intro key rest h
    simp [stripPre] at h
    simp [h]
  | cons c cs ih =>
    intro key rest h
    cases key with
    | nil => simp [stripPre] at h
    | cons d ds =>
      by_cases he : c = d
      · subst he
        simp [stripPre] at h
        simp [ih ds rest h]
      · simp [stripPre, he] at h

theorem toList_append (x y : String) : (x ++ y).toList = x.toList ++ y.toList := by
  simp [String.toList]

/-! ### GC lemmas -/

theorem hasSlaveFor_of_mem (slaves : List ((String × String) × Nat))
    (p : (String × String) × Nat) (hmem : p ∈ slaves) (k : String) (hk : p.1.1 = k) :
    hasSlaveFor slaves k = true := by
  induction slaves with
  | nil => cases hmem
  | cons s rest ih =>
    rcases List.mem_cons.mp hmem with rfl | hmem'
    · simp [hasSlaveFor, hk]
    · by_cases hs : s.1.1 = k
      · simp [hasSlaveFor, hs]
      · simp [hasSlaveFor, hs, ih hmem']

theorem gcPass_keep (slaves : List ((String × String) × Nat)) (ms : List (Nat × String))
    (h : ∀ m ∈ ms, hasSlaveFor slaves m.2 = true) : gcPass slaves ms = ms := by
  induction ms with
  | nil => rfl
  | cons m rest ih =>
    simp [gcPass, h m (List.mem_cons_self m rest),
      ih (fun x hx => h x (List.mem_cons_of_mem m hx))]

theorem gcPass_nil (ms : List (Nat × String)) : gcPass [] ms = [] := by
  induction ms with
  | nil => rfl
  | cons m rest ih => simp [gcPass, hasSlaveFor, ih]

/-! ### keyToID composition lemmas -/

theorem keyToID_under (a : Allocator) (s : String) :
    keyToID a (idPrefixOf a ++ "/" ++ s) =
      (match parseDec s.toList with
       | some n => n
       | none => NoID) := by
  unfold keyToID keyToIDL
  have h : (idPrefixOf a ++ "/" ++ s).toList = (idPrefixOf a).toList ++ ('/' :: s.toList) := by
    rw [toList_append, toList_append, List.append_assoc]
    rfl
  rw [h, stripPre_append]
  rfl

theorem keyToID_outside (a : Allocator) (key : String)
    (h : ∀ rest : List Char, key.toList ≠ (idPrefixOf a).toList ++ rest) :
    keyToID a key = NoID := by
  unfold keyToID keyToIDL
  cases hsp : stripPre (idPrefixOf a).toList key.toList with
  | none => rfl
  | some rest => exact absurd (stripPre_some _ _ _ hsp) (h rest)

/-! ### Result-list lemmas -/

theorem mem_resultsOf (ks : List String) :
    ∀ i r, r ∈ resultsOf i ks → ∃ j, j < ks.length ∧ r = ⟨i + j, true, none⟩ := by
  induction ks with
  | nil =>
    intro i r h
    simp [resultsOf] at h
  | cons k ks ih =>
    intro i r h
    rcases List.mem_cons.mp h with rfl | h'
    · exact ⟨0, by simp, by simp⟩
    · rcases ih (i + 1) r h' with ⟨j, hj, rfl⟩
      refine ⟨j + 1, by simp; omega, ?_⟩
      simp [AllocResult.mk.injEq]
      omega

theorem map_id_resultsOf (ks : List String) :
    ∀ i, (resultsOf i ks).map AllocResult.id = List.range' i ks.length := by
  induction ks with
  | nil => intro i; simp [resultsOf]
  | cons k ks ih =>
    intro i
    simp [resultsOf, ih (i + 1), List.range'_succ]

theorem select_mastersOf_full (n : Nat) (ps : List String) (h : n ≤ ps.length) :
    (selectAvailableID 1 n (mastersOf 1 ps)).1 = NoID := by
  rcases selectAvailableID_spec 1 n (mastersOf 1 ps) with ⟨heq, _⟩ | ⟨i, heq, h1, h2, h3, _⟩
  · rw [heq]
  · exfalso
    have hni : ¬(alookup i (mastersOf 1 ps)).isSome = true := by simp [h3]
    rw [alookup_mastersOf] at hni
    omega

/-! ### Claim theorems -/

/-- C7: when every ID in `[lo, hi]` is already in use — present in the
allocator's cache of master entries — selectAvailableID returns the
reserved value `NoID = 0` together with the empty string rather than any
ID. -/
theorem selectAvailableID_full_returns_noid (lo hi : Nat) (cache : List (Nat × String))
    (h : ∀ i ∈ List.range' lo (hi + 1 - lo), (alookup i cache).isSome = true) :
    selectAvailableID lo hi cache = (NoID, "") := by
  rcases selectAvailableID_spec lo hi cache with ⟨heq, _⟩ | ⟨i, heq, h1, h2, h3, _⟩
  · exact heq
  · exfalso
    have hx := h i (List.mem_range'_1.mpr ⟨h1, by omega⟩)
    rw [h3] at hx
    simp at hx

/-- Witness for C7: every ID of `[1, 3]` cached, the scan yields `(0, "")`. -/
theorem selectAvailableID_full_returns_noid_witness :
    selectAvailableID 1 3 [(1, "a"), (2, "b"), (3, "c")] = (NoID, "") :=
  selectAvailableID_full_returns_noid 1 3 [(1, "a"), (2, "b"), (3, "c")] (by decide)

/-- C2: runGC deletes a master entry only when no slave markers exist for
its key.  While the node still holds a reference (refcount ≥ 1) to every
key of the master listing — so, by invariant I4, a live slave marker per
key — runGC removes no master entry; once every slave marker is gone, a
single runGC pass empties the master listing. -/
theorem runGC_deletes_only_orphans (a : Allocator) (bk : Backend) :
    ((∀ m ∈ bk.masters, ∃ e ∈ a.localKeys, e.1 = m.2 ∧ 1 ≤ e.2.refcnt ∧
        ((e.1, a.suffix), e.2.id) ∈ bk.slaves) → runGC bk = bk)
    ∧ (bk.slaves = [] → (runGC bk).masters = []) := by
  constructor
  · intro h
    have hk : gcPass bk.slaves bk.masters = bk.masters := by
      apply gcPass_keep
      intro m hm
      rcases h m hm with ⟨e, _, hke, _, hsl⟩
      exact hasSlaveFor_of_mem bk.slaves ((e.1, a.suffix), e.2.id) hsl m.2 (by simpa using hke)
    simp [runGC, hk]
  · intro h
    simp [runGC, h, gcPass_nil]

/-- Witness for C2: with a slave marker per master nothing is collected;
with no slave markers the master listing empties. -/
theorem runGC_deletes_only_orphans_witness :
    runGC ⟨[(1, "k"), (2, "q")], [(("k", "a"), 1), (("q", "a"), 2)]⟩ =
      ⟨[(1, "k"), (2, "q")], [(("k", "a"), 1), (("q", "a"), 2)]⟩
    ∧ (runGC ⟨[(1, "k"), (2, "q")], []⟩).masters = [] :=
  ⟨(runGC_deletes_only_orphans ⟨"A", 1, 3, "a", [("k", ⟨1, 1⟩), ("q", ⟨2, 1⟩)], false⟩
      ⟨[(1, "k"), (2, "q")], [(("k", "a"), 1), (("q", "a"), 2)]⟩).1 (by decide),
   (runGC_deletes_only_orphans ⟨"A", 1, 3, "a", [], false⟩
      ⟨[(1, "k"), (2, "q")], []⟩).2 rfl⟩

/-- C4: if the node already holds K with refcount r ≥ 1, Allocate(K)
takes the LocalKeys fast path: it returns the same ID with isNew = false
and no error, leaves the backend untouched, and the stored refcount
becomes r + 1. -/
theorem allocate_local_fast_path (a : Allocator) (bk : Backend) (k : String) (i r : Nat)
    (hsc : a.skipCache = false) (h : alookup k a.localKeys = some ⟨i, r⟩) (hr : 1 ≤ r) :
    Allocate a bk k = (⟨i, false, none⟩, { a with localKeys := lkBump k a.localKeys }, bk)
    ∧ alookup k (lkBump k a.localKeys) = some ⟨i, r + 1⟩ :=
  ⟨allocate_fast selectAvailableID a bk k ⟨i, r⟩ hsc h, alookup_lkBump k a.localKeys ⟨i, r⟩ h⟩

/-- Witness for C4: a second Allocate of a key held with refcount 1
returns the same ID, isNew = false, and leaves the refcount at 2. -/
theorem allocate_local_fast_path_witness :
    Allocate ⟨"A", 1, 3, "a", [("k", ⟨1, 1⟩)], false⟩ ⟨[(1, "k")], [(("k", "a"), 1)]⟩ "k" =
      (⟨1, false, none⟩,
       { (⟨"A", 1, 3, "a", [("k", ⟨1, 1⟩)], false⟩ : Allocator) with
         localKeys := lkBump "k" [("k", ⟨1, 1⟩)] },
       ⟨[(1, "k")], [(("k", "a"), 1)]⟩)
    ∧ alookup "k" (lkBump "k" [("k", ⟨1, 1⟩)]) = some ⟨1, 2⟩ :=
  allocate_local_fast_path ⟨"A", 1, 3, "a", [("k", ⟨1, 1⟩)], false⟩
    ⟨[(1, "k")], [(("k", "a"), 1)]⟩ "k" 1 1 rfl (by decide) (by decide)

theorem allocate_err_or_not_new (sel : Nat → Nat → List (Nat × String) → Nat × String)
    (a : Allocator) (bk : Backend) (k : String) :
    (allocateWith sel a bk k).1.err = none ∨ (allocateWith sel a bk k).1.isNew = false := by
  simp only [allocateWith]
  repeat' split
  all_goals first
  | exact Or.inl rfl
  | exact Or.inr rfl

/-- C10: whenever Allocate returns a non-nil error the isNew flag is
false; isNew = true is only ever returned together with a nil error. -/
theorem allocate_error_implies_not_new (a : Allocator) (bk : Backend) (k : String)
    (h : (Allocate a bk k).1.err ≠ none) : (Allocate a bk k).1.isNew = false := by
  rcases allocate_err_or_not_new selectAvailableID a bk k with h0 | h0
  · exact absurd h0 h
  · exact h0

/-- Witness for C10: an exhausted pool (max = 0) errors with
isNew = false. -/
theorem allocate_error_implies_not_new_witness :
    (Allocate (mkAllocator "A" 0 "a") ⟨[], []⟩ "k").1.isNew = false :=
  allocate_error_implies_not_new (mkAllocator "A" 0 "a") ⟨[], []⟩ "k" (by decide)

/-- C6 counterexample: NewAllocator invoked without any WithMax option
does not fail — it returns, with a nil error, an allocator that keyToID
works on, exactly as the test TestkeyToID
(src/daemon/k8s_watcher.go:1898-1901) asserts. -/
theorem newAllocator_no_options_succeeds :
    ∃ a, NewAllocator "foo" [] = Except.ok a ∧ keyToID a "foo/id/10" = 10 :=
  ⟨_, rfl, by decide⟩

/-- C6 (amended): at construction min defaults to 1 — a construction
with WithMax but no WithMin yields a range starting at 1 — while a
construction without any WithMax option does not fail either: it
succeeds with a nil error and min = 1, and the resulting allocator is
usable for keyToID, as TestkeyToID asserts.  What max is in that case is
pinned by neither the spec nor the tests, and nothing here asserts it. -/
theorem newAllocator_defaults (nm sfx : String) (m : Nat) :
    (∃ a, NewAllocator nm [AllocatorOption.withMax m, AllocatorOption.withSuffix sfx] =
        Except.ok a ∧ a.min = 1 ∧ a.max = m ∧ a.suffix = sfx)
    ∧ (∃ a, NewAllocator nm [] = Except.ok a ∧ a.min = 1 ∧
        keyToID a (idPrefixOf a ++ "/" ++ String.mk (natToDec 10)) = 10 ∧
        keyToID a (idPrefixOf a ++ "/" ++ "invalid") = NoID) := by
  constructor
  · exact ⟨_, rfl, rfl, rfl, rfl⟩
  · refine ⟨_, rfl, rfl, ?_, ?_⟩
    · rw [keyToID_under]
      have h : (String.mk (natToDec 10)).toList = natToDec 10 := rfl
      rw [h, parseDec_natToDec]
    · rw [keyToID_under, parseDec_nondigit _ (by decide)]

/-- C8: keyToID maps a KV path `<idPrefix>/<decimal n>` under the
allocator's id prefix to the ID n, and returns NoID both for a path that
is no extension of the id prefix and for one whose trailing component is
not a base-10 ASCII integer (empty or containing a non-digit). -/
theorem keyToID_spec (a : Allocator) (n : Nat) (s key : String) :
    keyToID a (idPrefixOf a ++ "/" ++ String.mk (natToDec n)) = n
    ∧ ((s.toList = [] ∨ ∃ c ∈ s.toList, ¬ c.isDigit = true) →
        keyToID a (idPrefixOf a ++ "/" ++ s) = NoID)
    ∧ ((∀ rest : List Char, key.toList ≠ (idPrefixOf a).toList ++ rest) →
        keyToID a key = NoID) := by
  refine ⟨?_, ?_, ?_⟩
  · rw [keyToID_under]
    have h : (String.mk (natToDec n)).toList = natToDec n := rfl
    rw [h, parseDec_natToDec]
  · intro h
    rw [keyToID_under, parseDec_nondigit s.toList h]
  · exact keyToID_outside a key

/-- Witness for C8, mirroring TestkeyToID: `<idPrefix>/10` maps to 10,
`<idPrefix>/invalid` and a path outside the prefix map to NoID. -/
theorem keyToID_spec_witness :
    keyToID ⟨"foo", 1, 0, "", [], false⟩ "foo/id/10" = 10
    ∧ keyToID ⟨"foo", 1, 0, "", [], false⟩ "foo/id/invalid" = NoID
    ∧ keyToID ⟨"foo", 1, 0, "", [], false⟩ "foo/invalid" = NoID := by
  have h := keyToID_spec ⟨"foo", 1, 0, "", [], false⟩ 10 "invalid" "foo/invalid"
  refine ⟨h.1, h.2.1 (by decide), h.2.2 ?_⟩
  intro rest hEq
  have h1 : stripPre (idPrefixOf (⟨"foo", 1, 0, "", [], false⟩ : Allocator)).toList
      (String.toList "foo/invalid") = some rest := by
    rw [hEq]
    exact stripPre_append _ _
  have h2 : stripPre (idPrefixOf (⟨"foo", 1, 0, "", [], false⟩ : Allocator)).toList
      (String.toList "foo/invalid") = none := by decide
  rw [h1] at h2
  exact Option.noConfusion h2

/-- C9: which available ID the pool selector picks is not observable in
the caller-facing outcome of Allocate — for any two valid selection
policies the error outcome and the isNew flag coincide; callers rely only
on the call succeeding or failing.  The cleanliness hypotheses are the
spec invariants I2/I3 restricted to K: without a master entry for K there
is no slave marker and no LocalKeys entry for it. -/
theorem selector_choice_unobservable
    (sel1 sel2 : Nat → Nat → List (Nat × String) → Nat × String)
    (a : Allocator) (bk : Backend) (k : String)
    (h1 : validSelector sel1) (h2 : validSelector sel2) (hmin : 1 ≤ a.min)
    (hslv : vlookup k bk.masters = none → alookup (k, a.suffix) bk.slaves = none)
    (hloc : vlookup k bk.masters = none → alookup k a.localKeys = none) :
    obsOf (allocateWith sel1 a bk k).1 = obsOf (allocateWith sel2 a bk k).1 := by
  cases hfast : (if a.skipCache then none else alookup k a.localKeys) with
  | some e =>
    simp only [allocateWith, hfast]
  | none =>
    cases hv : vlookup k bk.masters with
    | some i =>
      simp only [allocateWith, hfast, hv]
    | none =>
      have hl := hloc hv
      have hs := hslv hv
      rcases h1 a.min a.max bk.masters hmin with ⟨z1, _, full1⟩ | ⟨lo1, hi1, free1⟩
      · rcases h2 a.min a.max bk.masters hmin with ⟨z2, _, full2⟩ | ⟨lo2, hi2, free2⟩
        · rw [allocate_exhausted sel1 a bk k hfast hv z1,
            allocate_exhausted sel2 a bk k hfast hv z2]
        · exfalso
          have hx := full1 (sel2 a.min a.max bk.masters).1 lo2 hi2
          rw [free2] at hx
          simp at hx
      · rcases h2 a.min a.max bk.masters hmin with ⟨z2, _, full2⟩ | ⟨lo2, hi2, free2⟩
        · exfalso
          have hx := full2 (sel1 a.min a.max bk.masters).1 lo1 hi1
          rw [free1] at hx
          simp at hx
        · have hc1 : (sel1 a.min a.max bk.masters).1 ≠ NoID := by
            show (sel1 a.min a.max bk.masters).1 ≠ 0
            omega
          have hc2 : (sel2 a.min a.max bk.masters).1 ≠ NoID := by
            show (sel2 a.min a.max bk.masters).1 ≠ 0
            omega
          rw [allocate_new sel1 a bk k _ hl hv rfl hc1 free1 hs,
            allocate_new sel2 a bk k _ hl hv rfl hc2 free2 hs]
          rfl

/-- Witness for C9: two valid selectors over a fresh allocator on an
empty backend yield the same caller-visible observation. -/
theorem selector_choice_unobservable_witness :
    obsOf (allocateWith selectAvailableID (mkAllocator "A" 3 "a") ⟨[], []⟩ "k").1 =
      obsOf (allocateWith selectAvailableID (mkAllocator "A" 3 "a") ⟨[], []⟩ "k").1 :=
  selector_choice_unobservable selectAvailableID selectAvailableID
    (mkAllocator "A" 3 "a") ⟨[], []⟩ "k"
    selectAvailableID_valid selectAvailableID_valid (by decide)
    (fun _ => rfl) (fun _ => rfl)

/-- C1: two allocator instances built with the same name but different
node suffixes that Allocate the same key — serialized by the per-key
distributed lock, modelled as sequential composition — obtain the same
nonzero ID; the first call observes isNew = true, the second
isNew = false. -/
theorem allocate_two_nodes_same_id (nm sA sB k : String) (n : Nat)
    (a1 a2 : Allocator) (bk : Backend)
    (ha1 : NewAllocator nm [AllocatorOption.withMax n, AllocatorOption.withSuffix sA] =
      Except.ok a1)
    (ha2 : NewAllocator nm [AllocatorOption.withMax n, AllocatorOption.withSuffix sB] =
      Except.ok a2)
    (hss : sA ≠ sB)
    (hm : vlookup k bk.masters = none)
    (hsA : alookup (k, sA) bk.slaves = none)
    (hsB : alookup (k, sB) bk.slaves = none)
    (hok : (Allocate a1 bk k).1.err = none) :
    (Allocate a1 bk k).1.isNew = true ∧ (Allocate a1 bk k).1.id ≠ NoID ∧
    (Allocate a2 (Allocate a1 bk k).2.2 k).1.err = none ∧
    (Allocate a2 (Allocate a1 bk k).2.2 k).1.id = (Allocate a1 bk k).1.id ∧
    (Allocate a2 (Allocate a1 bk k).2.2 k).1.isNew = false := by
  simp only [NewAllocator, List.foldl, applyOpt, Except.ok.injEq] at ha1 ha2
  subst ha1
  subst ha2
  by_cases hz : (selectAvailableID 1 n bk.masters).1 = NoID
  · exfalso
    have hex := allocate_exhausted selectAvailableID
      { name := nm, min := 1, max := n, suffix := sA, localKeys := [], skipCache := false }
      bk k rfl hm hz
    simp only [Allocate] at hok
    rw [hex] at hok
    simp at hok
  · rcases selectAvailableID_spec 1 n bk.masters with ⟨heq, _⟩ | ⟨c, heq, hc1, hc2, hfree, _⟩
    · exact absurd (by rw [heq]) hz
    · have hsel : (selectAvailableID 1 n bk.masters).1 = c := by rw [heq]
      have hcne : c ≠ NoID := by
        rw [← hsel]
        exact hz
      have hA := allocate_new selectAvailableID
        { name := nm, min := 1, max := n, suffix := sA, localKeys := [], skipCache := false }
        bk k c rfl hm hsel hcne hfree hsA
      have hv2 : vlookup k (bk.masters ++ [(c, k)]) = some c := by
        rw [vlookup_append, hm]
        simp [vlookup]
      have hs2 : alookup (k, sB) (bk.slaves ++ [((k, sA), c)]) = none := by
        rw [alookup_append, hsB]
        simp [alookup, hss]
      have hB := allocate_hit selectAvailableID
        { name := nm, min := 1, max := n, suffix := sB, localKeys := [], skipCache := false }
        { masters := bk.masters ++ [(c, k)], slaves := bk.slaves ++ [((k, sA), c)] }
        k c rfl hv2 hs2
      simp only [Allocate]
      rw [hA]
      simp only []
      rw [hB]
      refine ⟨?_, hcne, ?_, ?_, ?_⟩ <;> simp

/-- Witness for C1: nodes "a" and "b" allocating key "k" on an empty
backend with range `[1, 3]`. -/
theorem allocate_two_nodes_same_id_witness :
    (Allocate ⟨"A", 1, 3, "a", [], false⟩ ⟨[], []⟩ "k").1.isNew = true
    ∧ (Allocate ⟨"A", 1, 3, "a", [], false⟩ ⟨[], []⟩ "k").1.id ≠ NoID
    ∧ (Allocate ⟨"A", 1, 3, "b", [], false⟩
        (Allocate ⟨"A", 1, 3, "a", [], false⟩ ⟨[], []⟩ "k").2.2 "k").1.err = none
    ∧ (Allocate ⟨"A", 1, 3, "b", [], false⟩
        (Allocate ⟨"A", 1, 3, "a", [], false⟩ ⟨[], []⟩ "k").2.2 "k").1.id =
      (Allocate ⟨"A", 1, 3, "a", [], false⟩ ⟨[], []⟩ "k").1.id
    ∧ (Allocate ⟨"A", 1, 3, "b", [], false⟩
        (Allocate ⟨"A", 1, 3, "a", [], false⟩ ⟨[], []⟩ "k").2.2 "k").1.isNew = false :=
  allocate_two_nodes_same_id "A" "a" "b" "k" 3
    ⟨"A", 1, 3, "a", [], false⟩ ⟨"A", 1, 3, "b", [], false⟩ ⟨[], []⟩
    rfl rfl (by decide) rfl rfl rfl (by decide)

/-- C3: with min = 1 and max = n, allocating n distinct keys from one
node succeeds — every call returns a nonzero ID in [1, n], the IDs are
pairwise distinct, every call reports isNew = true — and a further
Allocate of an (n+1)-th distinct key fails with ErrPoolExhausted. -/
theorem allocate_fills_pool_then_exhausts (nm sfx kx : String) (n : Nat) (ks : List String)
    (hnd : ks.Nodup) (hlen : ks.length = n) (hkx : kx ∉ ks) :
    (∀ r ∈ (allocMany (mkAllocator nm n sfx) ⟨[], []⟩ ks).1,
        r.err = none ∧ r.isNew = true ∧ 1 ≤ r.id ∧ r.id ≤ n)
    ∧ ((allocMany (mkAllocator nm n sfx) ⟨[], []⟩ ks).1.map AllocResult.id).Nodup
    ∧ (Allocate (allocMany (mkAllocator nm n sfx) ⟨[], []⟩ ks).2.1
        (allocMany (mkAllocator nm n sfx) ⟨[], []⟩ ks).2.2 kx).1.err
        = some AllocError.poolExhausted := by
  have hmain := allocMany_closed nm sfx n ks [] hnd (by simp) (by simp [hlen])
  simp only [localsOf, mastersOf, slavesOf, List.nil_append, List.length_nil,
    Nat.zero_add] at hmain
  simp only [mkAllocator]
  rw [hmain]
  refine ⟨?_, ?_, ?_⟩
  · intro r hr
    rcases mem_resultsOf ks 1 r hr with ⟨j, hj, rfl⟩
    refine ⟨rfl, rfl, ?_, ?_⟩ <;> simp only [] <;> omega
  · rw [map_id_resultsOf]
    exact List.nodup_range' 1 ks.length
  · have hex := allocate_exhausted selectAvailableID
      { name := nm, min := 1, max := n, suffix := sfx,
        localKeys := localsOf 1 ks, skipCache := false }
      { masters := mastersOf 1 ks, slaves := slavesOf sfx 1 ks } kx
      (by simp [alookup_localsOf kx ks hkx 1])
      (vlookup_mastersOf kx ks hkx 1)
      (select_mastersOf_full n ks (by omega))
    simp only [Allocate]
    rw [hex]

/-- Witness for C3: range `[1, 2]`, keys "x" and "y" succeed with the
claimed shape and "z" exhausts the pool. -/
theorem allocate_fills_pool_then_exhausts_witness :
    (∀ r ∈ (allocMany (mkAllocator "A" 2 "a") ⟨[], []⟩ ["x", "y"]).1,
        r.err = none ∧ r.isNew = true ∧ 1 ≤ r.id ∧ r.id ≤ 2)
    ∧ ((allocMany (mkAllocator "A" 2 "a") ⟨[], []⟩ ["x", "y"]).1.map AllocResult.id).Nodup
    ∧ (Allocate (allocMany (mkAllocator "A" 2 "a") ⟨[], []⟩ ["x", "y"]).2.1
        (allocMany (mkAllocator "A" 2 "a") ⟨[], []⟩ ["x", "y"]).2.2 "z").1.err
        = some AllocError.poolExhausted :=
  allocate_fills_pool_then_exhausts "A" "a" "z" 2 ["x", "y"] (by decide) rfl (by decide)

/-- C5: starting from a state where the node holds no reference to K and
owns no slave marker for it, k Allocates of K followed by k Releases of K
leave no LocalKeys entry for K and no slave marker (K, node suffix) in
the backend. -/
theorem allocate_release_balanced (j : Nat) (a : Allocator) (bk : Backend) (k : String)
    (hj : 1 ≤ j) (hsc : a.skipCache = false)
    (hl : alookup k a.localKeys = none)
    (hs : alookup (k, a.suffix) bk.slaves = none) :
    alookup k (releaseN j (allocateN j a bk k).1 (allocateN j a bk k).2 k).1.localKeys = none
    ∧ alookup (k, a.suffix)
        (releaseN j (allocateN j a bk k).1 (allocateN j a bk k).2 k).2.slaves = none := by
  obtain ⟨m, rfl⟩ : ∃ m, j = m + 1 := ⟨j - 1, by omega⟩
  rcases allocate_shape a bk k hsc hl hs with hfail | ⟨i, b, ms, hok⟩
  · have hAN : allocateN (m + 1) a bk k = (a, bk) :=
      allocateN_fix a bk k (by rw [hfail]) (by rw [hfail]) (m + 1)
    rw [hAN]
    simp only []
    rw [releaseN_fix a bk k hl (m + 1)]
    exact ⟨hl, hs⟩
  · have hstep : allocateN (m + 1) a bk k =
        allocateN m { a with localKeys := a.localKeys ++ [(k, ⟨i, 1⟩)] }
          { masters := ms, slaves := bk.slaves ++ [((k, a.suffix), i)] } k := by
      simp only [allocateN]
      rw [hok]
    have ha1 : alookup k
        ({ a with localKeys := a.localKeys ++ [(k, ⟨i, 1⟩)] } : Allocator).localKeys
        = some ⟨i, 1⟩ := by
      simp only []
      rw [alookup_append, hl]
      simp [alookup]
    obtain ⟨hsuf, hscN, hbkN, halN⟩ := allocateN_fast k m
      { a with localKeys := a.localKeys ++ [(k, ⟨i, 1⟩)] }
      { masters := ms, slaves := bk.slaves ++ [((k, a.suffix), i)] } i 1 hsc ha1
    rw [show (1 : Nat) + m = m + 1 from by omega] at halN
    rw [hstep]
    rw [releaseN_drain k (m + 1)
      (allocateN m { a with localKeys := a.localKeys ++ [(k, ⟨i, 1⟩)] }
        { masters := ms, slaves := bk.slaves ++ [((k, a.suffix), i)] } k).1
      (allocateN m { a with localKeys := a.localKeys ++ [(k, ⟨i, 1⟩)] }
        { masters := ms, slaves := bk.slaves ++ [((k, a.suffix), i)] } k).2
      i halN (by omega)]
    simp only []
    constructor
    · exact alookup_aremove_self k _
    · rw [hsuf]
      exact alookup_aremove_self (k, a.suffix) _

/-- Witness for C5: two Allocates of "k" followed by two Releases on a
fresh node and empty backend leave no trace of "k". -/
theorem allocate_release_balanced_witness :
    alookup "k" (releaseN 2 (allocateN 2 (mkAllocator "A" 3 "a") ⟨[], []⟩ "k").1
      (allocateN 2 (mkAllocator "A" 3 "a") ⟨[], []⟩ "k").2 "k").1.localKeys = none
    ∧ alookup ("k", "a") (releaseN 2 (allocateN 2 (mkAllocator "A" 3 "a") ⟨[], []⟩ "k").1
        (allocateN 2 (mkAllocator "A" 3 "a") ⟨[], []⟩ "k").2 "k").2.slaves = none :=
  allocate_release_balanced 2 (mkAllocator "A" 3 "a") ⟨[], []⟩ "k" (by decide) rfl rfl rfl
